import Mathlib

/-!
Verification of the context-compaction, token-accounting, circuit-breaker and
ReAct-workflow components of the `pydantic-agent` repository, as a shallow
embedding in Lean.

Messages are the dict shape used throughout `context/compaction/*`:
a `role`, a `content` string, an optional list of tool calls (an empty list
models an absent or empty `tool_calls` key, matching Python truthiness), and a
`tool_call_id` (the empty string models an absent or falsy key).

The tiktoken encoding used by `TokenCounter.count` is an external dependency
(the spec treats it as an opaque oracle), so every definition is parametrised
by a text-token oracle `tcf : String → Nat`.
-/

structure ToolCall where
  id : String
  name : String
  arguments : String
  deriving Repr, DecidableEq

structure Message where
  role : String
  content : String
  toolCalls : List ToolCall := []
  toolCallId : String := ""
  deriving Repr, DecidableEq

namespace TokenCounter

/-- Tokens contributed by one tool call in `TokenCounter.count_messages`:
`self.count(name) + self.count(args) + 10  # Overhead`. -/
def toolCallTokens (tcf : String → Nat) (c : ToolCall) : Nat :=
  tcf c.name + tcf c.arguments + 10

/-- Tokens contributed by one message in `TokenCounter.count_messages`:
4 of per-message overhead, content tokens when content is truthy, role tokens
when the role is truthy, and the tokens of each tool call. -/
def messageTokens (tcf : String → Nat) (m : Message) : Nat :=
  4 + (if m.content = "" then 0 else tcf m.content)
    + (if m.role = "" then 0 else tcf m.role)
    + (m.toolCalls.map (toolCallTokens tcf)).sum

/-- Embedding of `TokenCounter.count_messages`: per-message totals plus the final overhead
of 3. -/
def count_messages (tcf : String → Nat) (messages : List Message) : Nat :=
  (messages.map (messageTokens tcf)).sum + 3

end TokenCounter

/-- Record `CompactionResult` from `context/compaction/base.py`. -/
structure CompactionResult where
  messages : List Message
  removed_count : Nat
  tokens_before : Nat
  tokens_after : Nat
  strategy : String
  deriving Repr, DecidableEq

namespace SlidingWindowStrategy

/-- The `while removable and count(removable + preserved) > target` loop of
`SlidingWindowStrategy.compact`, popping from the front; returns the surviving
removable messages and the number popped. -/
def popLoop (tcf : String → Nat) (target : Nat) (preserved : List Message) :
    List Message → List Message × Nat
  | [] => ([], 0)
  | m :: rest =>
    if TokenCounter.count_messages tcf (m :: rest ++ preserved) ≤ target then
      (m :: rest, 0)
    else
      let r := popLoop tcf target preserved rest
      (r.1, r.2 + 1)

/-- Embedding of `SlidingWindowStrategy.compact`. -/
def compact (tcf : String → Nat) (messages : List Message)
    (target_tokens : Nat) (preserve_recent : Nat) : CompactionResult :=
  let tokens_before := TokenCounter.count_messages tcf messages
  if tokens_before ≤ target_tokens then
    ⟨messages, 0, tokens_before, tokens_before, "sliding_window"⟩
  else
    let split : List Message × List Message :=
      if 0 < preserve_recent ∧ preserve_recent < messages.length then
        (messages.drop (messages.length - preserve_recent),
         messages.take (messages.length - preserve_recent))
      else ([], messages)
    let preserved := split.1
    let removable := split.2
    let r := popLoop tcf target_tokens preserved removable
    let result := r.1 ++ preserved
    ⟨result, r.2, tokens_before, TokenCounter.count_messages tcf result,
      "sliding_window"⟩

end SlidingWindowStrategy

namespace SummarizeOlderStrategy

/-- The distinct-tool-name accumulation inside
`SummarizeOlderStrategy._simple_summary`: walk assistant messages that carry
tool calls and collect each truthy, not-yet-seen function name in order. -/
def collectToolNames (msgs : List Message) : List String :=
  msgs.foldl
    (fun acc m =>
      m.toolCalls.foldl
        (fun acc2 c =>
          if c.name ≠ "" ∧ c.name ∉ acc2 then acc2 ++ [c.name] else acc2)
        acc)
    []

/-- Embedding of `SummarizeOlderStrategy._simple_summary`, the deterministic summariser used
when no summarization agent is configured. -/
def simpleSummary (messages : List Message) : String :=
  let userMessages := messages.filter (fun m => m.role == "user")
  let toolCallMsgs :=
    messages.filter (fun m => m.role == "assistant" && !m.toolCalls.isEmpty)
  let base := ["Conversation with " ++ toString messages.length ++ " messages."]
  let withTopics :=
    if userMessages.isEmpty then base
    else
      base ++ ["Topics discussed: "
        ++ String.intercalate ", " ((userMessages.take 3).map (fun m => m.content.take 50))
        ++ "..."]
  let toolNames := collectToolNames toolCallMsgs
  let parts :=
    if toolCallMsgs.isEmpty then withTopics
    else if toolNames.isEmpty then withTopics
    else withTopics ++ ["Tools used: " ++ String.intercalate ", " (toolNames.take 5)]
  String.intercalate " " parts

/-- Embedding of `SummarizeOlderStrategy.compact` with the no-agent (heuristic) summariser. -/
def compact (tcf : String → Nat) (messages : List Message)
    (target_tokens : Nat) (preserve_recent : Nat) : CompactionResult :=
  let tokens_before := TokenCounter.count_messages tcf messages
  if tokens_before ≤ target_tokens then
    ⟨messages, 0, tokens_before, tokens_before, "summarize_older"⟩
  else if 0 < preserve_recent ∧ preserve_recent < messages.length then
    let to_preserve := messages.drop (messages.length - preserve_recent)
    let to_summarize := messages.take (messages.length - preserve_recent)
    let summary_message : Message :=
      ⟨"system", "[Previous conversation summary: " ++ simpleSummary to_summarize ++ "]",
        [], ""⟩
    let result := summary_message :: to_preserve
    ⟨result, to_summarize.length, tokens_before,
      TokenCounter.count_messages tcf result, "summarize_older"⟩
  else
    ⟨messages, 0, tokens_before, TokenCounter.count_messages tcf messages,
      "summarize_older"⟩

end SummarizeOlderStrategy

namespace SelectivePruningStrategy

/-- State walk of `SelectivePruningStrategy._find_tool_call_pairs`: `assoc`
is the `tool_call_indices` dict (prepend = overwrite, `lookup` finds the most
recent binding), `pairs` accumulates `(call_index, result_index)`. -/
def findPairsAux : List Message → Nat → List (String × Nat) → List (Nat × Nat) →
    List (Nat × Nat)
  | [], _, _, pairs => pairs
  | m :: rest, i, assoc, pairs =>
    let assoc2 :=
      if m.role = "assistant" ∧ m.toolCalls ≠ [] then
        (m.toolCalls.filter (fun c => c.id ≠ "")).foldl (fun a c => (c.id, i) :: a) assoc
      else assoc
    let pairs2 :=
      if m.role = "tool" ∧ m.toolCallId ≠ "" then
        match assoc2.lookup m.toolCallId with
        | some ci => pairs ++ [(ci, i)]
        | none => pairs
      else pairs
    findPairsAux rest (i + 1) assoc2 pairs2

/-- Embedding of `SelectivePruningStrategy._find_tool_call_pairs`. -/
def find_tool_call_pairs (messages : List Message) : List (Nat × Nat) :=
  findPairsAux messages 0 [] []

def defaultMessage : Message := ⟨"", "", [], ""⟩

/-- The `for tc_idx, msg in enumerate(result_messages): ... break` scan that
replaces the first assistant message whose `tool_calls` equals `tcs` with a
synthetic system note; the Bool records whether a replacement happened. -/
def replaceFirstAssistant (tcs : List ToolCall) (summary : String) :
    List Message → List Message × Bool
  | [] => ([], false)
  | m :: rest =>
    if m.role = "assistant" ∧ m.toolCalls = tcs then
      (⟨"system", summary, [], ""⟩ :: rest, true)
    else
      let r := replaceFirstAssistant tcs summary rest
      (m :: r.1, r.2)

/-- The main pair loop of `SelectivePruningStrategy.compact`. `plen` is the
length of the original message list and `pr` the `preserve_recent` argument,
so `plen - pr ≤ idx` mirrors membership in `preserved_indices`. -/
def pruneLoop (tcf : String → Nat) (target : Nat) (origMessages : List Message)
    (plen pr : Nat) : List (Nat × Nat) → List Message → Nat → List Message × Nat
  | [], cur, removed => (cur, removed)
  | (ci, ri) :: rest, cur, removed =>
    if TokenCounter.count_messages tcf cur ≤ target then (cur, removed)
    else if 0 < pr ∧ (plen - pr ≤ ci ∨ plen - pr ≤ ri) then
      pruneLoop tcf target origMessages plen pr rest cur removed
    else
      let callMsg := origMessages.getD ci defaultMessage
      let tcs := callMsg.toolCalls
      if tcs = [] then pruneLoop tcf target origMessages plen pr rest cur removed
      else
        let names := tcs.map (fun c => c.name)
        let summary := "[Tool calls executed: " ++ String.intercalate ", " names ++ "]"
        let rep := replaceFirstAssistant tcs summary cur
        let removed2 := if rep.2 then removed + 1 else removed
        let ids := tcs.map (fun c => c.id)
        let cur2 := rep.1.filter (fun m => !(m.role == "tool" && ids.contains m.toolCallId))
        pruneLoop tcf target origMessages plen pr rest cur2 removed2

/-- Embedding of `SelectivePruningStrategy.compact`. -/
def compact (tcf : String → Nat) (messages : List Message)
    (target_tokens : Nat) (preserve_recent : Nat) : CompactionResult :=
  let tokens_before := TokenCounter.count_messages tcf messages
  if tokens_before ≤ target_tokens then
    ⟨messages, 0, tokens_before, tokens_before, "selective_pruning"⟩
  else
    let pairs := find_tool_call_pairs messages
    let r := pruneLoop tcf target_tokens messages messages.length preserve_recent
      pairs messages 0
    ⟨r.1, r.2, tokens_before, TokenCounter.count_messages tcf r.1,
      "selective_pruning"⟩

end SelectivePruningStrategy

namespace ImportanceScoringStrategy

/-- The role weight assigned in
`ImportanceScoringStrategy._heuristic_scores`. -/
def roleScore (m : Message) : ℚ :=
  if m.role = "system" then 1
  else if m.role = "user" then 7/10
  else if m.role = "assistant" then (if m.toolCalls ≠ [] then 1/2 else 3/5)
  else if m.role = "tool" then 3/10
  else 1/2

/-- Embedding of `ImportanceScoringStrategy._heuristic_scores`. Floating-point literals
0.5, 0.4, 0.7, … are modelled as exact rationals. -/
def heuristicScores (messages : List Message) : List ℚ :=
  let total := messages.length
  messages.enum.map (fun x =>
    let recencyScore : ℚ := (x.1 : ℚ) / (total : ℚ)
    let lengthScore : ℚ := min ((x.2.content.length : ℚ) / 500) (1/5)
    recencyScore * (1/2) + roleScore x.2 * (2/5) + lengthScore)

/-- The `while removable: … pop lowest` loop of
`ImportanceScoringStrategy.compact`; entries are `(index, (message, score))`
and the removable part is already sorted ascending by score. -/
def popLoop (tcf : String → Nat) (target : Nat) (preservedMsgs : List Message) :
    List (Nat × Message × ℚ) → List (Nat × Message × ℚ) × Nat
  | [] => ([], 0)
  | x :: rest =>
    if TokenCounter.count_messages tcf
        ((x :: rest).map (fun y => y.2.1) ++ preservedMsgs) ≤ target then
      (x :: rest, 0)
    else
      let r := popLoop tcf target preservedMsgs rest
      (r.1, r.2 + 1)

/-- Embedding of `ImportanceScoringStrategy.compact` with heuristic scoring (no agent). -/
def compact (tcf : String → Nat) (messages : List Message)
    (target_tokens : Nat) (preserve_recent : Nat) : CompactionResult :=
  let tokens_before := TokenCounter.count_messages tcf messages
  if tokens_before ≤ target_tokens then
    ⟨messages, 0, tokens_before, tokens_before, "importance_scoring"⟩
  else
    let scores := heuristicScores messages
    let indexed : List (Nat × Message × ℚ) := (messages.zip scores).enum
    let preserveStart := messages.length - preserve_recent
    let split :=
      if 0 < preserve_recent then
        (indexed.filter (fun x => decide (preserveStart ≤ x.1)),
         indexed.filter (fun x => decide (x.1 < preserveStart)))
      else ([], indexed)
    let preserved := split.1
    let removable := split.2
    let sortedRemovable := removable.mergeSort (fun a b => decide (a.2.2 ≤ b.2.2))
    let lp := popLoop tcf target_tokens (preserved.map (fun x => x.2.1)) sortedRemovable
    let remaining := (lp.1 ++ preserved).mergeSort (fun a b => decide (a.1 ≤ b.1))
    let result := remaining.map (fun x => x.2.1)
    ⟨result, lp.2, tokens_before, TokenCounter.count_messages tcf result,
      "importance_scoring"⟩

end ImportanceScoringStrategy

namespace HybridStrategy

/-- Embedding of `HybridStrategy.compact` with the default strategy sequence
`[SelectivePruningStrategy, SlidingWindowStrategy]`. The first loop check
compares the fresh token count to the target before each strategy runs. -/
def compact (tcf : String → Nat) (messages : List Message)
    (target_tokens : Nat) (preserve_recent : Nat) : CompactionResult :=
  let tokens_before := TokenCounter.count_messages tcf messages
  if tokens_before ≤ target_tokens then
    ⟨messages, 0, tokens_before, tokens_before, "hybrid"⟩
  else
    let r1 := SelectivePruningStrategy.compact tcf messages target_tokens preserve_recent
    let afterSel := TokenCounter.count_messages tcf r1.messages
    if afterSel ≤ target_tokens then
      ⟨r1.messages, r1.removed_count, tokens_before, afterSel,
        "hybrid(selective_pruning)"⟩
    else
      let r2 := SlidingWindowStrategy.compact tcf r1.messages target_tokens preserve_recent
      ⟨r2.messages, r1.removed_count + r2.removed_count, tokens_before,
        TokenCounter.count_messages tcf r2.messages,
        "hybrid(selective_pruning+sliding_window)"⟩

end HybridStrategy

namespace ContextManager

/-- The mutable state of `ContextManager` that `add_messages` touches: the
`MessageHistory` message list and its separate system-prompt slot. -/
structure State where
  systemPrompt : Option String
  messages : List Message
  deriving Repr, DecidableEq

/-- Embedding of `ContextManager.add_messages`: when `preserve_system_prompt` is set, a
system message overwrites the system-prompt slot of the history; every other
message is appended to the stored list. -/
def add_messages (preserveSystemPrompt : Bool) (s : State) (msgs : List Message) :
    State :=
  msgs.foldl
    (fun st m =>
      if m.role = "system" ∧ preserveSystemPrompt = true then
        { st with systemPrompt := some m.content }
      else { st with messages := st.messages ++ [m] })
    s

end ContextManager

namespace UsageTracker

/-- Embedding of `UsageTracker.get_cost_estimate`: the rate is the exact-match entry when
the model name is truthy and present in the table, else the `default` entry,
else 0; the cost is `(total_tokens / 1000) * rate`. Floats are modelled as
rationals; the rate table is a key-unique association list standing for the
Python dict. -/
def get_cost_estimate (costRates : List (String × ℚ)) (totalTokens : Nat)
    (model : Option String) : ℚ :=
  let rate : ℚ :=
    match model with
    | some m =>
      if m ≠ "" then
        match costRates.lookup m with
        | some r => r
        | none => (costRates.lookup "default").getD 0
      else (costRates.lookup "default").getD 0
    | none => (costRates.lookup "default").getD 0
  ((totalTokens : ℚ) / 1000) * rate

end UsageTracker

namespace CircuitBreaker

inductive CircuitState where
  | CLOSED
  | OPEN
  | HALF_OPEN
  deriving Repr, DecidableEq

structure Config where
  failure_threshold : Nat := 5
  success_threshold : Nat := 2
  timeout : ℚ := 30
  window_size : ℚ := 60
  deriving Repr, DecidableEq

/-- The mutable fields of `CircuitBreaker` used by the state machine; failure
records are kept as their timestamps, oldest first, and wall-clock times are
passed in explicitly (`time.time()` is modelled as a rational parameter). -/
structure Breaker where
  state : CircuitState
  failures : List ℚ
  lastFailureTime : Option ℚ
  halfOpenSuccesses : Nat
  deriving Repr, DecidableEq

def initial : Breaker := ⟨.CLOSED, [], none, 0⟩

/-- Embedding of `CircuitBreaker._should_attempt_reset`. -/
def shouldAttemptReset (cfg : Config) (b : Breaker) (now : ℚ) : Bool :=
  match b.lastFailureTime with
  | none => true
  | some t => decide (cfg.timeout ≤ now - t)

/-- The `state` property: an OPEN breaker whose timeout has elapsed transitions
to HALF_OPEN (which clears the half-open success counter) before reporting. -/
def currentState (cfg : Config) (b : Breaker) (now : ℚ) : CircuitState × Breaker :=
  if b.state = .OPEN ∧ shouldAttemptReset cfg b now = true then
    (.HALF_OPEN, { b with state := .HALF_OPEN, halfOpenSuccesses := 0 })
  else (b.state, b)

/-- Embedding of `CircuitBreaker.allow_request`: reads the (possibly transitioning) state
and allows everything except OPEN. -/
def allow_request (cfg : Config) (b : Breaker) (now : ℚ) : Bool × Breaker :=
  let sp := currentState cfg b now
  match sp.1 with
  | .CLOSED => (true, sp.2)
  | .HALF_OPEN => (true, sp.2)
  | .OPEN => (false, sp.2)

/-- Embedding of `CircuitBreaker._clean_old_failures`: drop records older than
`now - window_size` from the front of the deque. -/
def cleanOldFailures (cfg : Config) (failures : List ℚ) (now : ℚ) : List ℚ :=
  failures.dropWhile (fun t => decide (t < now - cfg.window_size))

/-- Embedding of `CircuitBreaker.record_failure`: append the failure, remember its time;
a HALF_OPEN breaker trips straight back to OPEN, a CLOSED breaker counts the
failures inside the window (which also prunes the deque) and opens at the
threshold. -/
def record_failure (cfg : Config) (b : Breaker) (now : ℚ) : Breaker :=
  let failures := b.failures ++ [now]
  let b2 := { b with failures := failures, lastFailureTime := some now }
  if b.state = .HALF_OPEN then
    { b2 with state := .OPEN }
  else if b.state = .CLOSED then
    let recent := cleanOldFailures cfg failures now
    if cfg.failure_threshold ≤ recent.length then
      { b2 with failures := recent, state := .OPEN }
    else { b2 with failures := recent }
  else b2

/-- Embedding of `CircuitBreaker.record_success`: only HALF_OPEN reacts; at
`success_threshold` consecutive successes the breaker closes and the failure
deque is cleared. -/
def record_success (cfg : Config) (b : Breaker) : Breaker :=
  if b.state = .HALF_OPEN then
    let n := b.halfOpenSuccesses + 1
    if cfg.success_threshold ≤ n then
      { b with state := .CLOSED, halfOpenSuccesses := n, failures := [] }
    else { b with halfOpenSuccesses := n }
  else b

end CircuitBreaker

namespace ReAct

/-- The message parts of the backend library that
`workflows/react/termination.py` inspects by type name. -/
inductive Part where
  | TextPart (content : String)
  | ToolCallPart (tool_name : String) (args : List (String × String)) (tool_call_id : String)
  | ToolReturnPart (tool_name : String) (content : String) (tool_call_id : String)
  deriving Repr, DecidableEq

/-- Items of `result.new_messages()`: model responses and model requests, each a
list of parts. -/
inductive ModelMessage where
  | ModelResponse (parts : List Part)
  | ModelRequest (parts : List Part)
  deriving Repr, DecidableEq

/-- Rendering of a Python args dict by `str(args)`; the exact text is
irrelevant to the workflow logic, only that it is some deterministic string. -/
def argsText (args : List (String × String)) : String :=
  "\x7b" ++ String.intercalate ", " (args.map (fun kv => kv.1 ++ ": " ++ kv.2)) ++ "\x7d"

/-- The inner part scan of `detect_final_answer`: the first `ToolCallPart`
carrying the termination tool name yields `args.get("answer", str(args))`. -/
def detectInParts (toolName : String) : List Part → Option String
  | [] => none
  | Part.ToolCallPart n args _ :: rest =>
    if n = toolName then some ((args.lookup "answer").getD (argsText args))
    else detectInParts toolName rest
  | _ :: rest => detectInParts toolName rest

/-- Embedding of `detect_final_answer` from `workflows/react/termination.py`: scan the new
`ModelResponse` parts of the new messages for a call of the termination tool; `some`
carries the extracted answer. -/
def detect_final_answer (newMessages : List ModelMessage) (toolName : String) :
    Option String :=
  match newMessages with
  | [] => none
  | ModelMessage.ModelResponse parts :: rest =>
    match detectInParts toolName parts with
    | some a => some a
    | none => detect_final_answer rest toolName
  | ModelMessage.ModelRequest _ :: rest => detect_final_answer rest toolName

/-- Outcome of `ReActWorkflow._execute`: `success = false` models the raised
`WorkflowMaxIterationsError`, and the termination fields mirror `ReActState`. -/
structure Outcome where
  success : Bool
  output : Option String
  is_terminated : Bool
  termination_reason : Option String
  final_answer : Option String
  iterations : Nat
  deriving Repr, DecidableEq

/-- The `while iteration < max_iter and not is_terminated` loop of
`ReActWorkflow._execute`, with `agent.run` abstracted as an oracle giving the
new messages of each iteration (iteration `i+1` reads `oracle i`). `fuel` is
the number of iterations still allowed, `i` the number already run. -/
def runAux (oracle : Nat → List ModelMessage) (toolName : String) :
    Nat → Nat → Outcome
  | 0, i => ⟨false, none, true, some "max_iterations", none, i⟩
  | fuel + 1, i =>
    match detect_final_answer (oracle i) toolName with
    | some ans => ⟨true, some ans, true, some "final_answer_tool", some ans, i + 1⟩
    | none => runAux oracle toolName fuel (i + 1)

/-- Embedding of `ReActWorkflow._execute` over the oracle, starting from a fresh
`ReActState`. -/
def execute (oracle : Nat → List ModelMessage) (toolName : String)
    (max_iterations : Nat) : Outcome :=
  runAux oracle toolName max_iterations 0

end ReAct

/-! ### Claim-side reference definitions and concrete inputs -/

/-- The per-message token formula exactly as claim C7 states it: content +
role + tool-call name/args tokens, a fixed overhead of 4 per message and a
trailing overhead of 3 — with no per-tool-call overhead. -/
def claimCountMessages (tcf : String → Nat) (messages : List Message) : Nat :=
  (messages.map (fun m =>
    tcf m.content + tcf m.role
      + (m.toolCalls.map (fun c => tcf c.name + tcf c.arguments)).sum + 4)).sum + 3

/-- A tool message is orphaned when no assistant message in the same list
carries a tool call with its `tool_call_id` (the pairing invariant of claim C1). -/
def hasOrphanedToolResult (ms : List Message) : Bool :=
  ms.any (fun m => m.role == "tool" && m.toolCallId != "" &&
    !(ms.any (fun a => a.role == "assistant"
        && a.toolCalls.any (fun c => c.id == m.toolCallId))))

/-- Concrete history: a completed tool-call pair followed by a user message. -/
def msgsPair : List Message :=
  [⟨"assistant", "", [⟨"t1", "f", ""⟩], ""⟩,
   ⟨"tool", "r", [], "t1"⟩,
   ⟨"user", "hi", [], ""⟩]

/-- C7 counterexample input: a single assistant message with one tool call. -/
def msgsOneCall : List Message := [⟨"assistant", "", [⟨"t1", "f", ""⟩], ""⟩]

/-- Character-list prefix test standing in for string prefix matching in the
reading of claim C9. -/
def isTextPrefixOf (p s : String) : Bool :=
  p.data.isPrefixOf s.data

/-- The rate lookup exactly as claim C9 states it: the entry exactly matching
the model name, else a table key that is a prefix of the model name, else the
`default` entry. -/
def claimRate (costRates : List (String × ℚ)) (model : String) : ℚ :=
  match costRates.lookup model with
  | some r => r
  | none =>
    match costRates.find? (fun kv => isTextPrefixOf kv.1 model) with
    | some kv => kv.2
    | none => (costRates.lookup "default").getD 0

/-- The cost formula as claim C9 states it. -/
def claimCostEstimate (costRates : List (String × ℚ)) (totalTokens : Nat)
    (model : String) : ℚ :=
  ((totalTokens : ℚ) / 1000) * claimRate costRates model

/-- Concrete rate table for the C9 counterexample. -/
def ratesPrefixed : List (String × ℚ) := [("gpt-4", 3/100), ("default", 1/1000)]

/-- Oracle for the C4 witness: the first iteration calls the final-answer
tool with answer "42". -/
def oracleFinalAnswer : Nat → List ReAct.ModelMessage :=
  fun n =>
    if n = 0 then
      [ReAct.ModelMessage.ModelResponse
        [ReAct.Part.ToolCallPart "final_answer" [("answer", "42")] "c1"]]
    else []

/-- Breaker states used by the C8 witness: one CLOSED just before tripping,
one OPEN past its timeout, one fresh HALF_OPEN. -/
def breakerClosed : CircuitBreaker.Breaker :=
  ⟨CircuitBreaker.CircuitState.CLOSED, [], none, 0⟩

def breakerOpen : CircuitBreaker.Breaker :=
  ⟨CircuitBreaker.CircuitState.OPEN, [0], some 0, 0⟩

def breakerHalfOpen : CircuitBreaker.Breaker :=
  ⟨CircuitBreaker.CircuitState.HALF_OPEN, [0], some 0, 0⟩

def cfgWitness : CircuitBreaker.Config := ⟨1, 2, 30, 60⟩


/-! Named subterms of `ImportanceScoringStrategy.compact`, used to state the
theorems about its over-target branch. -/

def ImportanceScoringStrategy.indexedOf (ms : List Message) :
    List (Nat × Message × ℚ) :=
  (ms.zip (ImportanceScoringStrategy.heuristicScores ms)).enum

def ImportanceScoringStrategy.preservedOf (ms : List Message) (pr : Nat) :
    List (Nat × Message × ℚ) :=
  if 0 < pr then
    (ImportanceScoringStrategy.indexedOf ms).filter
      (fun x => decide (ms.length - pr ≤ x.1))
  else []

def ImportanceScoringStrategy.removableOf (ms : List Message) (pr : Nat) :
    List (Nat × Message × ℚ) :=
  if 0 < pr then
    (ImportanceScoringStrategy.indexedOf ms).filter
      (fun x => decide (x.1 < ms.length - pr))
  else ImportanceScoringStrategy.indexedOf ms

def ImportanceScoringStrategy.sortedRemovableOf (ms : List Message) (pr : Nat) :
    List (Nat × Message × ℚ) :=
  (ImportanceScoringStrategy.removableOf ms pr).mergeSort
    (fun a b => decide (a.2.2 ≤ b.2.2))

def ImportanceScoringStrategy.lpOf (tcf : String → Nat) (ms : List Message)
    (target pr : Nat) : List (Nat × Message × ℚ) × Nat :=
  ImportanceScoringStrategy.popLoop tcf target
    ((ImportanceScoringStrategy.preservedOf ms pr).map (fun x => x.2.1))
    (ImportanceScoringStrategy.sortedRemovableOf ms pr)

def ImportanceScoringStrategy.remainingOf (tcf : String → Nat) (ms : List Message)
    (target pr : Nat) : List (Nat × Message × ℚ) :=
  ((ImportanceScoringStrategy.lpOf tcf ms target pr).1
      ++ ImportanceScoringStrategy.preservedOf ms pr).mergeSort
    (fun a b => decide (a.1 ≤ b.1))

def ImportanceScoringStrategy.resultOf (tcf : String → Nat) (ms : List Message)
    (target pr : Nat) : List Message :=
  (ImportanceScoringStrategy.remainingOf tcf ms target pr).map (fun x => x.2.1)


/-! ### Helper lemmas -/

theorem TokenCounter.count_messages_nil (tcf : String → Nat) :
    TokenCounter.count_messages tcf [] = 3 := rfl

theorem TokenCounter.count_messages_cons (tcf : String → Nat) (m : Message)
    (l : List Message) :
    TokenCounter.count_messages tcf (m :: l)
      = TokenCounter.messageTokens tcf m + TokenCounter.count_messages tcf l := by
  simp [TokenCounter.count_messages]; ring

theorem TokenCounter.count_messages_append (tcf : String → Nat) (l₁ l₂ : List Message) :
    TokenCounter.count_messages tcf (l₁ ++ l₂)
      = (l₁.map (TokenCounter.messageTokens tcf)).sum
        + TokenCounter.count_messages tcf l₂ := by
  simp [TokenCounter.count_messages]; ring

/-! ### C1 -/

/-- C1: the sliding-window strategy violates the tool-call pairing invariant
that the spec requires of every strategy: on a history holding a completed
pair and a trailing user message, compacting to 30 tokens (with the character
counter as token oracle and `preserve_recent = 2`) drops the assistant
tool-call but keeps its tool result, leaving an orphaned tool result. -/
theorem c1_sliding_window_orphans_tool_result :
    hasOrphanedToolResult msgsPair = false
    ∧ (SlidingWindowStrategy.compact String.length msgsPair 30 2).messages
        = [⟨"tool", "r", [], "t1"⟩, ⟨"user", "hi", [], ""⟩]
    ∧ hasOrphanedToolResult
        (SlidingWindowStrategy.compact String.length msgsPair 30 2).messages = true := by
  decide

/-! ### C7 -/

/-- C7 counterexample: `count_messages` adds 10 overhead tokens per tool call
(`counter.py` line 96), which the formula of the claim omits; with the zero token
oracle the code yields 17 for a one-tool-call message but the formula of the claim
yields 7. -/
theorem c7_count_messages_counterexample :
    (fun _ : String => (0:Nat)) "" = 0
    ∧ TokenCounter.count_messages (fun _ => 0) msgsOneCall = 17
    ∧ claimCountMessages (fun _ => 0) msgsOneCall = 7
    ∧ TokenCounter.count_messages (fun _ => 0) msgsOneCall
        ≠ claimCountMessages (fun _ => 0) msgsOneCall := by
  decide

/-- C7 amended: for any token oracle with `count("") = 0`, `count_messages`
is the sum claimed, with an additional overhead of 10 tokens per tool call;
in particular the empty list counts 3 and the result is a function of the
input (deterministic). -/
theorem c7_count_messages_amended (tcf : String → Nat) (h0 : tcf "" = 0)
    (messages : List Message) :
    TokenCounter.count_messages tcf messages
      = (messages.map (fun m =>
          tcf m.content + tcf m.role
            + (m.toolCalls.map (fun c => tcf c.name + tcf c.arguments + 10)).sum + 4)).sum
        + 3
    ∧ TokenCounter.count_messages tcf [] = 3 := by
  refine ⟨?_, rfl⟩
  unfold TokenCounter.count_messages
  have hmap : messages.map (TokenCounter.messageTokens tcf)
      = messages.map (fun m =>
          tcf m.content + tcf m.role
            + (m.toolCalls.map (fun c => tcf c.name + tcf c.arguments + 10)).sum + 4) := by
    apply List.map_congr_left
    intro m _
    unfold TokenCounter.messageTokens TokenCounter.toolCallTokens
    have hc : (if m.content = "" then 0 else tcf m.content) = tcf m.content := by
      split <;> simp_all
    have hr : (if m.role = "" then 0 else tcf m.role) = tcf m.role := by
      split <;> simp_all
    rw [hc, hr]
    ring
  rw [hmap]

/-- C7 witness: the amended formula evaluated with the character-count oracle
on the one-tool-call history. -/
theorem c7_count_messages_amended_witness :
    TokenCounter.count_messages String.length msgsOneCall
      = (msgsOneCall.map (fun m =>
          String.length m.content + String.length m.role
            + (m.toolCalls.map (fun c =>
                String.length c.name + String.length c.arguments + 10)).sum + 4)).sum
        + 3 :=
  (c7_count_messages_amended String.length rfl msgsOneCall).1

/-! ### C10 -/

/-- C10: with `preserve_system_prompt = true`, `add_messages` never appends a
system message to the stored list — the non-system messages are appended in
order, each system message only overwrites the system-prompt slot (so the last
one wins), and the stored message count grows only by the number of non-system
messages. -/
theorem c10_add_messages_system_routing (s : ContextManager.State)
    (msgs : List Message) :
    (ContextManager.add_messages true s msgs).messages
        = s.messages ++ msgs.filter (fun m => !(m.role == "system"))
    ∧ (ContextManager.add_messages true s msgs).systemPrompt
        = (match (msgs.filter (fun m => m.role == "system")).getLast? with
           | some m => some m.content
           | none => s.systemPrompt)
    ∧ (ContextManager.add_messages true s msgs).messages.length
        = s.messages.length + (msgs.filter (fun m => !(m.role == "system"))).length := by
  induction msgs generalizing s with
  | nil => simp [ContextManager.add_messages]
  | cons m rest ih =>
    by_cases hm : m.role = "system"
    · have step : ContextManager.add_messages true s (m :: rest)
          = ContextManager.add_messages true { s with systemPrompt := some m.content } rest := by
        simp [ContextManager.add_messages, List.foldl_cons, hm]
      obtain ⟨ih1, ih2, ih3⟩ := ih { s with systemPrompt := some m.content }
      refine ⟨?_, ?_, ?_⟩
      · rw [step, ih1]; simp [hm]
      · rw [step, ih2]
        have : (m :: rest).filter (fun m => m.role == "system")
            = m :: rest.filter (fun m => m.role == "system") := by
          simp [List.filter_cons, hm]
        rw [this, List.getLast?_cons]
        cases hrest : (rest.filter (fun m => m.role == "system")).getLast? with
        | none => simp [hrest]
        | some x => simp [hrest]
      · rw [step, ih3]; simp [hm]
    · have step : ContextManager.add_messages true s (m :: rest)
          = ContextManager.add_messages true { s with messages := s.messages ++ [m] } rest := by
        simp [ContextManager.add_messages, List.foldl_cons, hm]
      obtain ⟨ih1, ih2, ih3⟩ := ih { s with messages := s.messages ++ [m] }
      refine ⟨?_, ?_, ?_⟩
      · rw [step, ih1]; simp [hm]
      · rw [step, ih2]; simp [List.filter_cons, hm]
      · rw [step, ih3]; simp [hm]; ring

/-! ### C9 -/

/-- C9 counterexample: `get_cost_estimate` has no prefix-match fallback — for
the model name "gpt-4-turbo" (no exact entry, but prefixed by the key
"gpt-4") the code bills at the `default` rate while the claimed lookup bills
at the "gpt-4" rate. -/
theorem c9_cost_estimate_counterexample :
    UsageTracker.get_cost_estimate ratesPrefixed 1000 (some "gpt-4-turbo") = 1/1000
    ∧ claimCostEstimate ratesPrefixed 1000 "gpt-4-turbo" = 3/100
    ∧ UsageTracker.get_cost_estimate ratesPrefixed 1000 (some "gpt-4-turbo")
        ≠ claimCostEstimate ratesPrefixed 1000 "gpt-4-turbo" := by
  have h1 : ("gpt-4-turbo" == "gpt-4") = false := by decide
  have h2 : ("gpt-4-turbo" == "default") = false := by decide
  have h3 : ("default" == "gpt-4") = false := by decide
  have h4 : ("default" == "default") = true := by decide
  have h5 : isTextPrefixOf "gpt-4" "gpt-4-turbo" = true := by decide
  refine ⟨?_, ?_, ?_⟩
  · simp only [UsageTracker.get_cost_estimate, ratesPrefixed, List.lookup, h1, h2, h3, h4]
    norm_num
  · simp only [claimCostEstimate, claimRate, ratesPrefixed, List.lookup, List.find?,
      h1, h2, h5]
    norm_num
  · simp only [UsageTracker.get_cost_estimate, claimCostEstimate, claimRate, ratesPrefixed,
      List.lookup, List.find?, h1, h2, h3, h4, h5]
    norm_num

/-- C9 amended: `get_cost_estimate` computes `(total_tokens / 1000) × rate`
where the rate is the entry exactly matching a truthy model name, falling back
directly to the `default` entry (or 0 when absent) — there is no prefix-match
fallback in this method. -/
theorem c9_cost_estimate_amended (costRates : List (String × ℚ))
    (totalTokens : Nat) (model : Option String) :
    (∀ m r, model = some m → m ≠ "" → costRates.lookup m = some r →
      UsageTracker.get_cost_estimate costRates totalTokens model
        = ((totalTokens : ℚ) / 1000) * r)
    ∧ (∀ m, model = some m → m ≠ "" → costRates.lookup m = none →
      UsageTracker.get_cost_estimate costRates totalTokens model
        = ((totalTokens : ℚ) / 1000) * ((costRates.lookup "default").getD 0))
    ∧ (model = none →
      UsageTracker.get_cost_estimate costRates totalTokens model
        = ((totalTokens : ℚ) / 1000) * ((costRates.lookup "default").getD 0)) := by
  refine ⟨?_, ?_, ?_⟩
  · rintro m r rfl hm hl
    simp [UsageTracker.get_cost_estimate, hm, hl]
  · rintro m rfl hm hl
    simp [UsageTracker.get_cost_estimate, hm, hl]
  · rintro rfl
    simp [UsageTracker.get_cost_estimate]

/-- C9 witness: the amended characterisation applied to the concrete table at
an exactly-matching model name. -/
theorem c9_cost_estimate_amended_witness :
    UsageTracker.get_cost_estimate ratesPrefixed 1000 (some "gpt-4")
      = ((1000 : ℚ) / 1000) * (3/100) :=
  (c9_cost_estimate_amended ratesPrefixed 1000 (some "gpt-4")).1 "gpt-4" (3/100)
    rfl (by decide) rfl

/-! ### C4 -/

/-- When no iteration in the remaining fuel fires the final-answer detector,
`runAux` ends in the max-iterations failure. -/
theorem ReAct.runAux_max_iterations (oracle : Nat → List ReAct.ModelMessage)
    (toolName : String) :
    ∀ fuel i, (∀ j, j < fuel → ReAct.detect_final_answer (oracle (i + j)) toolName = none) →
      ReAct.runAux oracle toolName fuel i
        = ⟨false, none, true, some "max_iterations", none, i + fuel⟩ := by
  intro fuel
  induction fuel with
  | zero => intro i _; rfl
  | succ k ih =>
    intro i h
    have h0 : ReAct.detect_final_answer (oracle i) toolName = none := by
      have := h 0 (Nat.succ_pos k)
      simpa using this
    have hrest : ∀ j, j < k → ReAct.detect_final_answer (oracle (i + 1 + j)) toolName = none := by
      intro j hj
      have := h (j + 1) (Nat.succ_lt_succ hj)
      rw [show i + 1 + j = i + (j + 1) by omega]
      exact this
    simp only [ReAct.runAux, h0]
    rw [ih (i + 1) hrest]
    congr 1
    omega

/-- When iteration `i + k` is the first (within the fuel) where the detector
fires, `runAux` succeeds with that answer. -/
theorem ReAct.runAux_fires (oracle : Nat → List ReAct.ModelMessage)
    (toolName : String) :
    ∀ fuel i k a, k < fuel →
      (∀ j, j < k → ReAct.detect_final_answer (oracle (i + j)) toolName = none) →
      ReAct.detect_final_answer (oracle (i + k)) toolName = some a →
      ReAct.runAux oracle toolName fuel i
        = ⟨true, some a, true, some "final_answer_tool", some a, i + k + 1⟩ := by
  intro fuel
  induction fuel with
  | zero => intro i k a hk; omega
  | succ n ih =>
    intro i k a hk hnone hfire
    cases k with
    | zero =>
      simp only [Nat.add_zero] at hfire
      simp only [ReAct.runAux, hfire]
    | succ k2 =>
      have h0 : ReAct.detect_final_answer (oracle i) toolName = none := by
        have := hnone 0 (Nat.succ_pos k2)
        simpa using this
      simp only [ReAct.runAux, h0]
      have hnone2 : ∀ j, j < k2 →
          ReAct.detect_final_answer (oracle (i + 1 + j)) toolName = none := by
        intro j hj
        have := hnone (j + 1) (Nat.succ_lt_succ hj)
        rw [show i + 1 + j = i + (j + 1) by omega]
        exact this
      have hfire2 : ReAct.detect_final_answer (oracle (i + 1 + k2)) toolName = some a := by
        rw [show i + 1 + k2 = i + (k2 + 1) by omega]
        exact hfire
      have := ih (i + 1) k2 a (by omega) hnone2 hfire2
      rw [this]
      congr 1
      omega

/-- C4: the ReAct loop completes successfully iff the model calls the
final-answer tool within `max_iterations` iterations; on the first firing
iteration the run terminates with `termination_reason = "final_answer_tool"`
and returns the extracted answer, and if no iteration fires the run fails
with the max-iterations error, the state recording
`termination_reason = "max_iterations"`. -/
theorem c4_react_termination (oracle : Nat → List ReAct.ModelMessage)
    (toolName : String) (maxIter : Nat) :
    ((∀ i, i < maxIter → ReAct.detect_final_answer (oracle i) toolName = none) →
      ReAct.execute oracle toolName maxIter
        = ⟨false, none, true, some "max_iterations", none, maxIter⟩)
    ∧ (∀ i a, i < maxIter →
        (∀ j, j < i → ReAct.detect_final_answer (oracle j) toolName = none) →
        ReAct.detect_final_answer (oracle i) toolName = some a →
        ReAct.execute oracle toolName maxIter
          = ⟨true, some a, true, some "final_answer_tool", some a, i + 1⟩) := by
  constructor
  · intro h
    have := ReAct.runAux_max_iterations oracle toolName maxIter 0 (by simpa using h)
    simpa [ReAct.execute] using this
  · intro i a hi hnone hfire
    have := ReAct.runAux_fires oracle toolName maxIter 0 i a hi (by simpa using hnone)
      (by simpa using hfire)
    simpa [ReAct.execute] using this

/-- C4 witness: with that oracle and `max_iterations = 3`, the run succeeds at
iteration 1 with output "42". -/
theorem c4_react_termination_witness :
    ReAct.execute oracleFinalAnswer "final_answer" 3
      = ⟨true, some "42", true, some "final_answer_tool", some "42", 1⟩ :=
  (c4_react_termination oracleFinalAnswer "final_answer" 3).2 0 "42"
    (by omega) (fun j hj => absurd hj (Nat.not_lt_zero j)) (by decide)

/-! ### C8 -/

/-- In HALF_OPEN, recording successes leaves the breaker half-open until the
`n`-th success reaches the threshold, at which point it closes. -/
theorem CircuitBreaker.iterate_success_closes (cfg : CircuitBreaker.Config) :
    ∀ n b, b.state = CircuitBreaker.CircuitState.HALF_OPEN →
      b.halfOpenSuccesses + n = cfg.success_threshold → 1 ≤ n →
      ((CircuitBreaker.record_success cfg)^[n] b).state
        = CircuitBreaker.CircuitState.CLOSED := by
  intro n
  induction n with
  | zero => intro b _ _ h1; omega
  | succ k ih =>
    intro b hb hsum _
    rw [Function.iterate_succ_apply]
    cases k with
    | zero =>
      have hth : cfg.success_threshold ≤ b.halfOpenSuccesses + 1 := by omega
      simp [CircuitBreaker.record_success, hb, hth]
    | succ k2 =>
      have hth : ¬ cfg.success_threshold ≤ b.halfOpenSuccesses + 1 := by omega
      have hstep : CircuitBreaker.record_success cfg b
          = { b with halfOpenSuccesses := b.halfOpenSuccesses + 1 } := by
        simp [CircuitBreaker.record_success, hb, hth]
      rw [hstep]
      refine ih _ hb ?_ (by omega)
      simp only []
      omega

/-- C8: the circuit-breaker step relation — (1) from CLOSED, once the recorded
failures within the sliding window reach `failure_threshold`, the breaker is
OPEN and (for a positive timeout) `allow_request` at that instant returns
false; (2) once `timeout` seconds have elapsed since the last failure, the
next `allow_request` returns true and transitions the breaker to HALF_OPEN;
(3) from a fresh HALF_OPEN state, `success_threshold` consecutive recorded
successes close the breaker; (4) in HALF_OPEN a single recorded failure trips
it back to OPEN. -/
theorem c8_circuit_breaker (cfg : CircuitBreaker.Config)
    (b : CircuitBreaker.Breaker) (now tf : ℚ) :
    (b.state = CircuitBreaker.CircuitState.CLOSED →
      cfg.failure_threshold
          ≤ (CircuitBreaker.cleanOldFailures cfg (b.failures ++ [now]) now).length →
      (CircuitBreaker.record_failure cfg b now).state
          = CircuitBreaker.CircuitState.OPEN
        ∧ (0 < cfg.timeout →
            (CircuitBreaker.allow_request cfg
              (CircuitBreaker.record_failure cfg b now) now).1 = false))
    ∧ (b.state = CircuitBreaker.CircuitState.OPEN →
        b.lastFailureTime = some tf → cfg.timeout ≤ now - tf →
        (CircuitBreaker.allow_request cfg b now).1 = true
          ∧ (CircuitBreaker.allow_request cfg b now).2.state
              = CircuitBreaker.CircuitState.HALF_OPEN)
    ∧ (b.state = CircuitBreaker.CircuitState.HALF_OPEN →
        b.halfOpenSuccesses = 0 → 1 ≤ cfg.success_threshold →
        ((CircuitBreaker.record_success cfg)^[cfg.success_threshold] b).state
          = CircuitBreaker.CircuitState.CLOSED)
    ∧ (b.state = CircuitBreaker.CircuitState.HALF_OPEN →
        (CircuitBreaker.record_failure cfg b now).state
          = CircuitBreaker.CircuitState.OPEN) := by
  refine ⟨?_, ?_, ?_, ?_⟩
  · intro hb hth
    have hbo : b.state = CircuitBreaker.CircuitState.HALF_OPEN ↔ False := by
      simp [hb]
    have hrec : (CircuitBreaker.record_failure cfg b now)
        = { b with
            failures := CircuitBreaker.cleanOldFailures cfg (b.failures ++ [now]) now,
            lastFailureTime := some now,
            state := CircuitBreaker.CircuitState.OPEN } := by
      simp [CircuitBreaker.record_failure, hb, hth]
    constructor
    · rw [hrec]
    · intro htpos
      rw [hrec]
      have hreset : CircuitBreaker.shouldAttemptReset cfg
          { b with
            failures := CircuitBreaker.cleanOldFailures cfg (b.failures ++ [now]) now,
            lastFailureTime := some now,
            state := CircuitBreaker.CircuitState.OPEN } now = false := by
        simp [CircuitBreaker.shouldAttemptReset]
        linarith
      simp [CircuitBreaker.allow_request, CircuitBreaker.currentState, hreset]
  · intro hb hlast helapsed
    have hreset : CircuitBreaker.shouldAttemptReset cfg b now = true := by
      simp [CircuitBreaker.shouldAttemptReset, hlast]
      linarith
    simp [CircuitBreaker.allow_request, CircuitBreaker.currentState, hb, hreset]
  · intro hb h0 h1
    exact CircuitBreaker.iterate_success_closes cfg cfg.success_threshold b hb
      (by omega) h1
  · intro hb
    simp [CircuitBreaker.record_failure, hb]

/-- C8 witness: all four parts of the step-relation theorem instantiated on
concrete breakers with `failure_threshold = 1`, `success_threshold = 2`,
`timeout = 30`, `window_size = 60`. -/
theorem c8_circuit_breaker_witness :
    ((CircuitBreaker.record_failure cfgWitness breakerClosed 0).state
        = CircuitBreaker.CircuitState.OPEN
      ∧ (CircuitBreaker.allow_request cfgWitness
          (CircuitBreaker.record_failure cfgWitness breakerClosed 0) 0).1 = false)
    ∧ ((CircuitBreaker.allow_request cfgWitness breakerOpen 31).1 = true
      ∧ (CircuitBreaker.allow_request cfgWitness breakerOpen 31).2.state
          = CircuitBreaker.CircuitState.HALF_OPEN)
    ∧ ((CircuitBreaker.record_success cfgWitness)^[2] breakerHalfOpen).state
        = CircuitBreaker.CircuitState.CLOSED
    ∧ (CircuitBreaker.record_failure cfgWitness breakerHalfOpen 5).state
        = CircuitBreaker.CircuitState.OPEN := by
  have hclean : CircuitBreaker.cleanOldFailures cfgWitness
      (breakerClosed.failures ++ [0]) 0 = [0] := by
    simp [CircuitBreaker.cleanOldFailures, breakerClosed, cfgWitness, List.dropWhile]
    norm_num
  have h1 := (c8_circuit_breaker cfgWitness breakerClosed 0 0).1 rfl
    (by rw [hclean]; simp [cfgWitness])
  have h2 := (c8_circuit_breaker cfgWitness breakerOpen 31 0).2.1 rfl rfl
    (by norm_num [cfgWitness, breakerOpen])
  have h3 := (c8_circuit_breaker cfgWitness breakerHalfOpen 0 0).2.2.1 rfl rfl
    (by norm_num [cfgWitness])
  have h4 := (c8_circuit_breaker cfgWitness breakerHalfOpen 5 0).2.2.2 rfl
  refine ⟨⟨h1.1, h1.2 (by norm_num [cfgWitness])⟩, ⟨h2.1, h2.2⟩, ?_, h4⟩
  simpa [cfgWitness] using h3

theorem natSum_le_of_sublist {l₁ l₂ : List Nat} (h : l₁.Sublist l₂) :
    l₁.sum ≤ l₂.sum := by
  induction h with
  | slnil => simp
  | cons a _ ih => simp only [List.sum_cons]; omega
  | cons₂ a _ ih => simp only [List.sum_cons]; omega

/-- The sliding-window pop loop never increases the count of the surviving
messages (together with the preserved tail). -/
theorem SlidingWindowStrategy.popLoop_count_le (tcf : String → Nat) (target : Nat)
    (p : List Message) :
    ∀ l, TokenCounter.count_messages tcf
          ((SlidingWindowStrategy.popLoop tcf target p l).1 ++ p)
        ≤ TokenCounter.count_messages tcf (l ++ p) := by
  intro l
  induction l with
  | nil => simp [SlidingWindowStrategy.popLoop]
  | cons m rest ih =>
    simp only [SlidingWindowStrategy.popLoop]
    by_cases h : TokenCounter.count_messages tcf (m :: rest ++ p) ≤ target
    · rw [if_pos h]
    · rw [if_neg h]
      refine le_trans ih ?_
      rw [List.cons_append, TokenCounter.count_messages_cons]
      omega

/-- The pop loop removes exactly as many messages as it counted. -/
theorem SlidingWindowStrategy.slidingPopLoop_length (tcf : String → Nat) (target : Nat)
    (p : List Message) :
    ∀ l, (SlidingWindowStrategy.popLoop tcf target p l).1.length
          + (SlidingWindowStrategy.popLoop tcf target p l).2 = l.length := by
  intro l
  induction l with
  | nil => simp [SlidingWindowStrategy.popLoop]
  | cons m rest ih =>
    simp only [SlidingWindowStrategy.popLoop]
    by_cases h : TokenCounter.count_messages tcf (m :: rest ++ p) ≤ target
    · rw [if_pos h]
      simp
    · rw [if_neg h]
      simp only [List.length_cons]
      omega

/-- The surviving removable messages are a sublist of the input. -/
theorem SlidingWindowStrategy.slidingPopLoop_sublist (tcf : String → Nat) (target : Nat)
    (p : List Message) :
    ∀ l, (SlidingWindowStrategy.popLoop tcf target p l).1.Sublist l := by
  intro l
  induction l with
  | nil => simp [SlidingWindowStrategy.popLoop]
  | cons m rest ih =>
    simp only [SlidingWindowStrategy.popLoop]
    by_cases h : TokenCounter.count_messages tcf (m :: rest ++ p) ≤ target
    · rw [if_pos h]
    · rw [if_neg h]
      exact ih.cons m

/-- Sliding-window compaction never increases the token count. -/
theorem SlidingWindowStrategy.sliding_tokens_after_le (tcf : String → Nat)
    (ms : List Message) (target pr : Nat) :
    (SlidingWindowStrategy.compact tcf ms target pr).tokens_after
      ≤ (SlidingWindowStrategy.compact tcf ms target pr).tokens_before := by
  unfold SlidingWindowStrategy.compact
  by_cases h : TokenCounter.count_messages tcf ms ≤ target
  · simp [h]
  · simp only [h, if_false]
    by_cases hc : 0 < pr ∧ pr < ms.length
    · simp only [hc, and_self, if_true]
      have hle := SlidingWindowStrategy.popLoop_count_le tcf target
        (ms.drop (ms.length - pr)) (ms.take (ms.length - pr))
      have heq : ms.take (ms.length - pr) ++ ms.drop (ms.length - pr) = ms :=
        List.take_append_drop _ ms
      rw [heq] at hle
      simpa using hle
    · simp only [hc, if_false]
      have hle := SlidingWindowStrategy.popLoop_count_le tcf target [] ms
      simpa using hle

theorem ImportanceScoringStrategy.heuristicScores_length (ms : List Message) :
    (ImportanceScoringStrategy.heuristicScores ms).length = ms.length := by
  simp [ImportanceScoringStrategy.heuristicScores]

theorem ImportanceScoringStrategy.compact_eq_of_over (tcf : String → Nat)
    (ms : List Message) (target pr : Nat)
    (h : ¬ TokenCounter.count_messages tcf ms ≤ target) :
    ImportanceScoringStrategy.compact tcf ms target pr =
      ⟨ImportanceScoringStrategy.resultOf tcf ms target pr,
        (ImportanceScoringStrategy.lpOf tcf ms target pr).2,
        TokenCounter.count_messages tcf ms,
        TokenCounter.count_messages tcf (ImportanceScoringStrategy.resultOf tcf ms target pr),
        "importance_scoring"⟩ := by
  simp only [ImportanceScoringStrategy.compact, h, if_false,
    ImportanceScoringStrategy.resultOf, ImportanceScoringStrategy.remainingOf,
    ImportanceScoringStrategy.lpOf, ImportanceScoringStrategy.sortedRemovableOf,
    ImportanceScoringStrategy.removableOf, ImportanceScoringStrategy.preservedOf,
    ImportanceScoringStrategy.indexedOf]
  by_cases hpr : 0 < pr
  · simp [hpr]
  · simp [hpr]

theorem ImportanceScoringStrategy.importancePopLoop_sublist (tcf : String → Nat)
    (target : Nat) (p : List Message) :
    ∀ l, (ImportanceScoringStrategy.popLoop tcf target p l).1.Sublist l := by
  intro l
  induction l with
  | nil => simp [ImportanceScoringStrategy.popLoop]
  | cons x rest ih =>
    simp only [ImportanceScoringStrategy.popLoop]
    by_cases h : TokenCounter.count_messages tcf
        ((x :: rest).map (fun y => y.2.1) ++ p) ≤ target
    · rw [if_pos h]
    · rw [if_neg h]
      exact ih.cons x

theorem ImportanceScoringStrategy.importancePopLoop_length (tcf : String → Nat)
    (target : Nat) (p : List Message) :
    ∀ l, (ImportanceScoringStrategy.popLoop tcf target p l).1.length
        + (ImportanceScoringStrategy.popLoop tcf target p l).2 = l.length := by
  intro l
  induction l with
  | nil => simp [ImportanceScoringStrategy.popLoop]
  | cons x rest ih =>
    simp only [ImportanceScoringStrategy.popLoop]
    by_cases h : TokenCounter.count_messages tcf
        ((x :: rest).map (fun y => y.2.1) ++ p) ≤ target
    · rw [if_pos h]
      simp
    · rw [if_neg h]
      simp only [List.length_cons]
      omega

/-- Summing a message-level function over the enumerated zip recovers the sum
over the messages. -/
theorem sum_over_enum_zip (g : Message → Nat) (ms : List Message)
    (scores : List ℚ) (hlen : ms.length ≤ scores.length) :
    (((ms.zip scores).enum).map (fun x => g x.2.1)).sum = (ms.map g).sum := by
  have h1 : ((ms.zip scores).enum).map (fun x => g x.2.1)
      = ((ms.zip scores).enum.map Prod.snd).map (fun y => g y.1) := by
    rw [List.map_map]; rfl
  rw [h1, List.enum_map_snd]
  have h2 : (ms.zip scores).map (fun y => g y.1)
      = (List.map Prod.fst (ms.zip scores)).map g := by
    rw [List.map_map]; rfl
  rw [h2, List.map_fst_zip _ _ hlen]

/-- The two filters of `ImportanceScoringStrategy.compact` partition the
indexed list (as a permutation). -/
theorem ImportanceScoringStrategy.partition_perm (ms : List Message) (pr : Nat) :
    (ImportanceScoringStrategy.removableOf ms pr
      ++ ImportanceScoringStrategy.preservedOf ms pr).Perm
        (ImportanceScoringStrategy.indexedOf ms) := by
  by_cases hpr : 0 < pr
  · simp only [ImportanceScoringStrategy.removableOf,
      ImportanceScoringStrategy.preservedOf, hpr, if_true]
    have hcongr : (ImportanceScoringStrategy.indexedOf ms).filter
          (fun x => decide (x.1 < ms.length - pr))
        = (ImportanceScoringStrategy.indexedOf ms).filter
          (fun x => !(decide (ms.length - pr ≤ x.1))) := by
      apply List.filter_congr
      intro x _
      simp only [← decide_not, decide_eq_decide]
      omega
    rw [hcongr]
    have := List.filter_append_perm (fun x : Nat × Message × ℚ =>
      decide (ms.length - pr ≤ x.1)) (ImportanceScoringStrategy.indexedOf ms)
    exact (List.perm_append_comm.trans this)
  · simp [ImportanceScoringStrategy.removableOf,
      ImportanceScoringStrategy.preservedOf, hpr]

theorem ImportanceScoringStrategy.indexedOf_length (ms : List Message) :
    (ImportanceScoringStrategy.indexedOf ms).length = ms.length := by
  simp [ImportanceScoringStrategy.indexedOf,
    ImportanceScoringStrategy.heuristicScores_length]

/-- Importance-scoring compaction never increases the token count. -/
theorem ImportanceScoringStrategy.importance_tokens_after_le (tcf : String → Nat)
    (ms : List Message) (target pr : Nat) :
    (ImportanceScoringStrategy.compact tcf ms target pr).tokens_after
      ≤ (ImportanceScoringStrategy.compact tcf ms target pr).tokens_before := by
  by_cases h : TokenCounter.count_messages tcf ms ≤ target
  · simp [ImportanceScoringStrategy.compact, h]
  · rw [ImportanceScoringStrategy.compact_eq_of_over tcf ms target pr h]
    show TokenCounter.count_messages tcf (ImportanceScoringStrategy.resultOf tcf ms target pr)
      ≤ TokenCounter.count_messages tcf ms
    unfold TokenCounter.count_messages
    have key : ((ImportanceScoringStrategy.resultOf tcf ms target pr).map
          (TokenCounter.messageTokens tcf)).sum
        ≤ (ms.map (TokenCounter.messageTokens tcf)).sum := by
      set f : Nat × Message × ℚ → Nat :=
        fun x => TokenCounter.messageTokens tcf x.2.1 with hf
      have hA : ((ImportanceScoringStrategy.resultOf tcf ms target pr).map
            (TokenCounter.messageTokens tcf)).sum
          = ((ImportanceScoringStrategy.lpOf tcf ms target pr).1.map f).sum
            + ((ImportanceScoringStrategy.preservedOf ms pr).map f).sum := by
        unfold ImportanceScoringStrategy.resultOf
        rw [List.map_map]
        have hperm : (ImportanceScoringStrategy.remainingOf tcf ms target pr).Perm
            ((ImportanceScoringStrategy.lpOf tcf ms target pr).1
              ++ ImportanceScoringStrategy.preservedOf ms pr) :=
          List.mergeSort_perm _ _
        rw [(hperm.map _).sum_eq]
        rw [List.map_append, List.sum_append]
        rfl
      have hB : ((ImportanceScoringStrategy.lpOf tcf ms target pr).1.map f).sum
          ≤ ((ImportanceScoringStrategy.removableOf ms pr).map f).sum := by
        have hsub := ImportanceScoringStrategy.importancePopLoop_sublist tcf target
          ((ImportanceScoringStrategy.preservedOf ms pr).map (fun x => x.2.1))
          (ImportanceScoringStrategy.sortedRemovableOf ms pr)
        have h1 := natSum_le_of_sublist (hsub.map f)
        have hperm : (ImportanceScoringStrategy.sortedRemovableOf ms pr).Perm
            (ImportanceScoringStrategy.removableOf ms pr) :=
          List.mergeSort_perm _ _
        rw [(hperm.map f).sum_eq] at h1
        exact h1
      have hC : ((ImportanceScoringStrategy.removableOf ms pr).map f).sum
            + ((ImportanceScoringStrategy.preservedOf ms pr).map f).sum
          = ((ImportanceScoringStrategy.indexedOf ms).map f).sum := by
        have hperm := ImportanceScoringStrategy.partition_perm ms pr
        rw [← (hperm.map f).sum_eq, List.map_append, List.sum_append]
      have hD : ((ImportanceScoringStrategy.indexedOf ms).map f).sum
          = (ms.map (TokenCounter.messageTokens tcf)).sum := by
        unfold ImportanceScoringStrategy.indexedOf
        exact sum_over_enum_zip (TokenCounter.messageTokens tcf) ms _
          (by rw [ImportanceScoringStrategy.heuristicScores_length])
      omega
    omega

/-- Importance-scoring compaction removes exactly the difference in lengths. -/
theorem ImportanceScoringStrategy.importance_removed_count_length (tcf : String → Nat)
    (ms : List Message) (target pr : Nat) :
    (ImportanceScoringStrategy.compact tcf ms target pr).removed_count
        + (ImportanceScoringStrategy.compact tcf ms target pr).messages.length
      = ms.length := by
  by_cases h : TokenCounter.count_messages tcf ms ≤ target
  · simp [ImportanceScoringStrategy.compact, h]
  · rw [ImportanceScoringStrategy.compact_eq_of_over tcf ms target pr h]
    show (ImportanceScoringStrategy.lpOf tcf ms target pr).2
        + (ImportanceScoringStrategy.resultOf tcf ms target pr).length = ms.length
    have hres : (ImportanceScoringStrategy.resultOf tcf ms target pr).length
        = (ImportanceScoringStrategy.lpOf tcf ms target pr).1.length
          + (ImportanceScoringStrategy.preservedOf ms pr).length := by
      unfold ImportanceScoringStrategy.resultOf ImportanceScoringStrategy.remainingOf
      rw [List.length_map, List.length_mergeSort, List.length_append]
    have hlp := ImportanceScoringStrategy.importancePopLoop_length tcf target
      ((ImportanceScoringStrategy.preservedOf ms pr).map (fun x => x.2.1))
      (ImportanceScoringStrategy.sortedRemovableOf ms pr)
    have hsorted : (ImportanceScoringStrategy.sortedRemovableOf ms pr).length
        = (ImportanceScoringStrategy.removableOf ms pr).length := by
      unfold ImportanceScoringStrategy.sortedRemovableOf
      rw [List.length_mergeSort]
    have hpart : (ImportanceScoringStrategy.removableOf ms pr).length
          + (ImportanceScoringStrategy.preservedOf ms pr).length
        = (ImportanceScoringStrategy.indexedOf ms).length := by
      have := (ImportanceScoringStrategy.partition_perm ms pr).length_eq
      simpa [List.length_append] using this
    have hidx := ImportanceScoringStrategy.indexedOf_length ms
    change (ImportanceScoringStrategy.lpOf tcf ms target pr).1.length
        + (ImportanceScoringStrategy.lpOf tcf ms target pr).2
      = (ImportanceScoringStrategy.sortedRemovableOf ms pr).length at hlp
    omega

/-- Sliding-window compaction removes exactly the difference in lengths. -/
theorem SlidingWindowStrategy.sliding_removed_count_length (tcf : String → Nat)
    (ms : List Message) (target pr : Nat) :
    (SlidingWindowStrategy.compact tcf ms target pr).removed_count
        + (SlidingWindowStrategy.compact tcf ms target pr).messages.length
      = ms.length := by
  unfold SlidingWindowStrategy.compact
  by_cases h : TokenCounter.count_messages tcf ms ≤ target
  · simp [h]
  · simp only [h, if_false]
    by_cases hc : 0 < pr ∧ pr < ms.length
    · rw [if_pos hc]
      have hlp := SlidingWindowStrategy.slidingPopLoop_length tcf target
        (ms.drop (ms.length - pr)) (ms.take (ms.length - pr))
      have h1 : (ms.take (ms.length - pr)).length = ms.length - pr := by
        rw [List.length_take]; omega
      have h2 : (ms.drop (ms.length - pr)).length = pr := by
        rw [List.length_drop]; omega
      simp only [List.length_append]
      omega
    · rw [if_neg hc]
      have hlp := SlidingWindowStrategy.slidingPopLoop_length tcf target [] ms
      simp only [List.length_append, List.length_nil]
      omega

/-- Summarize-older: removed count, output length and the single synthetic
summary insertion balance out. -/
theorem SummarizeOlderStrategy.summarize_removed_count_length (tcf : String → Nat)
    (ms : List Message) (target pr : Nat) :
    (SummarizeOlderStrategy.compact tcf ms target pr).removed_count
        + (SummarizeOlderStrategy.compact tcf ms target pr).messages.length
      = ms.length
        + (if 0 < (SummarizeOlderStrategy.compact tcf ms target pr).removed_count
           then 1 else 0) := by
  unfold SummarizeOlderStrategy.compact
  by_cases h : TokenCounter.count_messages tcf ms ≤ target
  · simp [h]
  · simp only [h, if_false]
    by_cases hc : 0 < pr ∧ pr < ms.length
    · rw [if_pos hc]
      have h1 : (ms.take (ms.length - pr)).length = ms.length - pr := by
        rw [List.length_take]; omega
      have h2 : (ms.drop (ms.length - pr)).length = pr := by
        rw [List.length_drop]; omega
      simp only [List.length_cons, h1, h2]
      have hpos : 0 < ms.length - pr := by omega
      rw [if_pos hpos]
      omega
    · rw [if_neg hc]
      simp

/-! ### C2 -/

/-- Concrete history of three empty user messages for the C2 counterexample. -/
def msgsUsers3 : List Message :=
  [⟨"user", "", [], ""⟩, ⟨"user", "", [], ""⟩, ⟨"user", "", [], ""⟩]

set_option maxRecDepth 8192 in
/-- C2 counterexample: summarize-older can *increase* the token count above
both `tokens_before` and the target: with the character-count oracle, three
empty user messages (27 tokens) compacted to a 10-token target with
`preserve_recent = 1` produce a synthetic summary so large that
`tokens_after = 107`. -/
theorem c2_summarize_exceeds_max :
    (SummarizeOlderStrategy.compact String.length msgsUsers3 10 1).tokens_before = 27
    ∧ (SummarizeOlderStrategy.compact String.length msgsUsers3 10 1).tokens_after = 107
    ∧ ¬ ((SummarizeOlderStrategy.compact String.length msgsUsers3 10 1).tokens_after
          ≤ max (SummarizeOlderStrategy.compact String.length msgsUsers3 10 1).tokens_before
              10) := by
  decide

/-- C2 amended: the pure-removal strategies (sliding window and importance
scoring) do satisfy `tokens_after ≤ max(tokens_before, target_tokens)` — in
fact `tokens_after ≤ tokens_before`; the strategies that insert synthetic
messages (summarize-older, selective pruning, hybrid) can exceed it. -/
theorem c2_tokens_after_le_max (tcf : String → Nat) (ms : List Message)
    (target pr : Nat) :
    (SlidingWindowStrategy.compact tcf ms target pr).tokens_after
        ≤ max (SlidingWindowStrategy.compact tcf ms target pr).tokens_before target
    ∧ (ImportanceScoringStrategy.compact tcf ms target pr).tokens_after
        ≤ max (ImportanceScoringStrategy.compact tcf ms target pr).tokens_before target :=
  ⟨le_trans (SlidingWindowStrategy.sliding_tokens_after_le tcf ms target pr) (le_max_left _ _),
   le_trans (ImportanceScoringStrategy.importance_tokens_after_le tcf ms target pr) (le_max_left _ _)⟩

/-! ### C5 -/

/-- C5 counterexample: selective pruning counts only the replaced assistant
message in `removed_count` (here 1), while the claimed formula
`len(input) - len(output) + synthetic_inserts` gives 3 - 2 + 1 = 2: the
removal of the paired tool message is not counted. -/
theorem c5_selective_removed_count_counterexample :
    (SelectivePruningStrategy.compact String.length msgsPair 10 0).removed_count = 1
    ∧ (SelectivePruningStrategy.compact String.length msgsPair 10 0).messages.length = 2
    ∧ msgsPair.length = 3
    ∧ ((SelectivePruningStrategy.compact String.length msgsPair 10 0).messages.countP
        (fun m => m.role == "system"
          && isTextPrefixOf "[Tool calls executed: " m.content)) = 1
    ∧ (SelectivePruningStrategy.compact String.length msgsPair 10 0).removed_count
        ≠ msgsPair.length
          - (SelectivePruningStrategy.compact String.length msgsPair 10 0).messages.length
          + 1 := by
  decide

/-- C5 amended: for sliding window and importance scoring
`removed_count = len(input) - len(output)` with no synthetic inserts; for
summarize-older `removed_count = len(input) - len(output) + 1` whenever it
summarised (and 0 otherwise); selective pruning (and hybrid, which runs it)
does not satisfy the formula — it counts replaced assistant messages only. -/
theorem c5_removed_count (tcf : String → Nat) (ms : List Message)
    (target pr : Nat) :
    (SlidingWindowStrategy.compact tcf ms target pr).removed_count
        + (SlidingWindowStrategy.compact tcf ms target pr).messages.length
      = ms.length
    ∧ (ImportanceScoringStrategy.compact tcf ms target pr).removed_count
        + (ImportanceScoringStrategy.compact tcf ms target pr).messages.length
      = ms.length
    ∧ (SummarizeOlderStrategy.compact tcf ms target pr).removed_count
        + (SummarizeOlderStrategy.compact tcf ms target pr).messages.length
      = ms.length
        + (if 0 < (SummarizeOlderStrategy.compact tcf ms target pr).removed_count
           then 1 else 0) :=
  ⟨SlidingWindowStrategy.sliding_removed_count_length tcf ms target pr,
   ImportanceScoringStrategy.importance_removed_count_length tcf ms target pr,
   SummarizeOlderStrategy.summarize_removed_count_length tcf ms target pr⟩

/-! ### C6 -/

theorem ImportanceScoringStrategy.roleScore_nonneg (m : Message) :
    0 ≤ ImportanceScoringStrategy.roleScore m := by
  unfold ImportanceScoringStrategy.roleScore
  split_ifs <;> norm_num

theorem ImportanceScoringStrategy.roleScore_le_one (m : Message) :
    ImportanceScoringStrategy.roleScore m ≤ 1 := by
  unfold ImportanceScoringStrategy.roleScore
  split_ifs <;> norm_num

/-- Pointwise description of the heuristic score list. -/
theorem ImportanceScoringStrategy.heuristicScores_get (ms : List Message)
    (i : Nat) (m : Message) (h : ms[i]? = some m) :
    (ImportanceScoringStrategy.heuristicScores ms)[i]?
      = some ((i : ℚ) / (ms.length : ℚ) * (1/2)
          + ImportanceScoringStrategy.roleScore m * (2/5)
          + min ((m.content.length : ℚ) / 500) (1/5)) := by
  unfold ImportanceScoringStrategy.heuristicScores
  rw [List.getElem?_map, List.getElem?_enum, h]
  rfl

/-- Every heuristic score is nonnegative and below 1.1. -/
theorem ImportanceScoringStrategy.heuristicScores_bounds (ms : List Message) :
    ∀ s ∈ ImportanceScoringStrategy.heuristicScores ms, 0 ≤ s ∧ s < 11/10 := by
  intro s hs
  unfold ImportanceScoringStrategy.heuristicScores at hs
  obtain ⟨⟨i, m⟩, hmem, rfl⟩ := List.mem_map.mp hs
  obtain ⟨hi, _⟩ := List.mem_enum hmem
  have hn : (0:ℚ) < (ms.length : ℚ) := by
    have : 0 < ms.length := by omega
    exact_mod_cast this
  have hrec0 : (0:ℚ) ≤ (i : ℚ) / (ms.length : ℚ) := by positivity
  have hrec1 : (i : ℚ) / (ms.length : ℚ) < 1 := by
    rw [div_lt_one hn]
    exact_mod_cast hi
  have hrole0 := ImportanceScoringStrategy.roleScore_nonneg m
  have hrole1 := ImportanceScoringStrategy.roleScore_le_one m
  have hmin0 : (0:ℚ) ≤ min ((m.content.length : ℚ) / 500) (1/5) := by
    apply le_min
    · positivity
    · norm_num
  have hmin1 : min ((m.content.length : ℚ) / 500) (1/5) ≤ 1/5 := min_le_right _ _
  constructor
  · positivity
  · nlinarith

/-- A 100-character content string for the C6 counterexample. -/
def content100 : String :=
  String.mk (List.replicate 100 'a')

/-- Six identical system messages with 100-character content. -/
def msgsSix : List Message :=
  List.replicate 6 ⟨"system", content100, [], ""⟩

/-- C6 counterexample: the heuristic can assign a score above 1 — on six
system messages of 100 characters each, the message at index 5 scores
`0.5·(5/6) + 0.4·1.0 + 0.2 = 61/60 > 1`, so the scores do not all lie in
`[0,1]`. -/
theorem c6_score_exceeds_one :
    (ImportanceScoringStrategy.heuristicScores msgsSix)[5]? = some (61/60)
    ∧ ¬ ((61:ℚ)/60 ≤ 1) := by
  constructor
  · have h5 : msgsSix[5]? = some ⟨"system", content100, [], ""⟩ := by decide
    rw [ImportanceScoringStrategy.heuristicScores_get msgsSix 5 _ h5]
    have hlen : content100.length = 100 := by decide
    have hrole : ImportanceScoringStrategy.roleScore ⟨"system", content100, [], ""⟩ = 1 := by
      simp [ImportanceScoringStrategy.roleScore]
    have hlenms : msgsSix.length = 6 := by decide
    rw [hrole, hlenms, hlen]
    norm_num
  · norm_num

/-- The role weight exactly as claim C6 states it; 0 marks a role the claim
does not mention. -/
def claimRoleWeight (m : Message) : ℚ :=
  if m.role = "system" then 1
  else if m.role = "user" then 7/10
  else if m.role = "assistant" then (if m.toolCalls ≠ [] then 1/2 else 3/5)
  else if m.role = "tool" then 3/10
  else 0

/-- The score formula exactly as claim C6 states it. -/
def claimScore (n i : Nat) (m : Message) : ℚ :=
  1/2 * ((i : ℚ) / (n : ℚ)) + 2/5 * claimRoleWeight m
    + min ((m.content.length : ℚ) / 500) (1/5)

/-- C6 amended: the heuristic assigns exactly the claimed score
`0.5·(i/n) + 0.4·role_weight + min(len/500, 0.2)` (for the four roles the
claim enumerates), but the scores lie in `[0, 1.1)`, not `[0, 1]`. -/
theorem c6_heuristic_scores (ms : List Message) (i : Nat) (m : Message)
    (h : ms[i]? = some m)
    (hrole : m.role = "system" ∨ m.role = "user" ∨ m.role = "assistant"
      ∨ m.role = "tool") :
    (ImportanceScoringStrategy.heuristicScores ms)[i]?
        = some (claimScore ms.length i m)
    ∧ (∀ s ∈ ImportanceScoringStrategy.heuristicScores ms, 0 ≤ s ∧ s < 11/10) := by
  constructor
  · rw [ImportanceScoringStrategy.heuristicScores_get ms i m h]
    have hw : ImportanceScoringStrategy.roleScore m = claimRoleWeight m := by
      rcases hrole with hr | hr | hr | hr <;>
        simp [ImportanceScoringStrategy.roleScore, claimRoleWeight, hr]
    rw [claimScore, hw]
    ring_nf
  · exact ImportanceScoringStrategy.heuristicScores_bounds ms

/-- C6 witness: the amended score formula evaluated on the six-message
counterexample input at index 5. -/
theorem c6_heuristic_scores_witness :
    (ImportanceScoringStrategy.heuristicScores msgsSix)[5]?
      = some (claimScore msgsSix.length 5 ⟨"system", content100, [], ""⟩) :=
  (c6_heuristic_scores msgsSix 5 ⟨"system", content100, [], ""⟩ (by decide)
    (Or.inl rfl)).1

/-! ### C3 -/

/-- Filtering an enumeration-from `k` by `n ≤ index` and projecting the
elements yields `drop (n - k)`. -/
theorem enumFrom_filter_le_map_snd {α : Type} (n : Nat) :
    ∀ (k : Nat) (l : List α),
      (((List.enumFrom k l).filter (fun x => decide (n ≤ x.1))).map Prod.snd)
        = l.drop (n - k) := by
  intro k l
  induction l generalizing k with
  | nil => simp
  | cons a t ih =>
    rw [List.enumFrom_cons, List.filter_cons]
    by_cases hk : n ≤ k
    · have hd : (decide (n ≤ (k, a).1)) = true := by simpa using hk
      rw [hd]
      simp only [if_true]
      rw [List.map_cons, ih (k + 1)]
      have h1 : n - k = 0 := by omega
      have h2 : n - (k + 1) = 0 := by omega
      rw [h1, h2]
      simp
    · have hd : (decide (n ≤ (k, a).1)) = false := by simpa using hk
      rw [hd]
      simp only [Bool.false_eq_true, if_false]
      rw [ih (k + 1)]
      have h1 : n - k = (n - (k + 1)) + 1 := by omega
      rw [h1, List.drop_succ_cons]

/-- The preserved entries of importance scoring are exactly the last
`preserve_recent` messages of the input. -/
theorem ImportanceScoringStrategy.preservedOf_map (ms : List Message) (pr : Nat)
    (hpr : 0 < pr) :
    (ImportanceScoringStrategy.preservedOf ms pr).map (fun x => x.2.1)
      = ms.drop (ms.length - pr) := by
  unfold ImportanceScoringStrategy.preservedOf ImportanceScoringStrategy.indexedOf
  rw [if_pos hpr]
  have hcomp : (fun x : Nat × Message × ℚ => x.2.1) = Prod.fst ∘ Prod.snd := rfl
  rw [hcomp, ← List.map_map]
  have henum : (ms.zip (ImportanceScoringStrategy.heuristicScores ms)).enum
      = List.enumFrom 0 (ms.zip (ImportanceScoringStrategy.heuristicScores ms)) := rfl
  rw [henum, enumFrom_filter_le_map_snd (ms.length - pr) 0, Nat.sub_zero]
  rw [List.map_drop, List.map_fst_zip _ _
    (by rw [ImportanceScoringStrategy.heuristicScores_length])]

/-- The indexed entries carry strictly increasing indices. -/
theorem ImportanceScoringStrategy.indexedOf_pairwise (ms : List Message) :
    List.Pairwise (fun a b => a.1 < b.1)
      (ImportanceScoringStrategy.indexedOf ms) := by
  unfold ImportanceScoringStrategy.indexedOf
  have h1 : List.Pairwise (· < ·)
      (List.map Prod.fst ((ms.zip (ImportanceScoringStrategy.heuristicScores ms)).enum)) := by
    rw [List.enum_map_fst]
    exact List.pairwise_lt_range _
  exact List.pairwise_map.mp h1

/-- Entries surviving the importance pop loop sit strictly before the
preserve window. -/
theorem ImportanceScoringStrategy.lpOf_mem_lt (tcf : String → Nat)
    (ms : List Message) (target pr : Nat) (hpr : 0 < pr) :
    ∀ x ∈ (ImportanceScoringStrategy.lpOf tcf ms target pr).1,
      x.1 < ms.length - pr := by
  intro x hx
  have h1 : x ∈ ImportanceScoringStrategy.sortedRemovableOf ms pr :=
    (ImportanceScoringStrategy.importancePopLoop_sublist tcf target _ _).subset hx
  have h2 : x ∈ ImportanceScoringStrategy.removableOf ms pr :=
    (List.mergeSort_perm _ _).subset h1
  unfold ImportanceScoringStrategy.removableOf at h2
  rw [if_pos hpr] at h2
  have := List.of_mem_filter h2
  simpa using this

/-- The reassembly step of importance scoring: sorting the surviving entries
by index places the preserved block, untouched and in order, after the
surviving removable entries. -/
theorem ImportanceScoringStrategy.remainingOf_eq (tcf : String → Nat)
    (ms : List Message) (target pr : Nat) (hpr : 0 < pr) :
    ImportanceScoringStrategy.remainingOf tcf ms target pr
      = ((ImportanceScoringStrategy.lpOf tcf ms target pr).1.mergeSort
          (fun a b => decide (a.1 ≤ b.1)))
        ++ ImportanceScoringStrategy.preservedOf ms pr := by
  haveI : IsAntisymm (Nat × Message × ℚ) (fun a b => a.1 < b.1) :=
    ⟨fun a b h1 h2 => absurd h2 (Nat.lt_asymm h1)⟩
  set A := (ImportanceScoringStrategy.lpOf tcf ms target pr).1 with hA
  set P := ImportanceScoringStrategy.preservedOf ms pr with hP
  have hsymm : ∀ {x y : Nat × Message × ℚ}, x.1 ≠ y.1 → y.1 ≠ x.1 :=
    fun h => h.symm
  have htrans : ∀ a b c : Nat × Message × ℚ,
      (fun a b : Nat × Message × ℚ => decide (a.1 ≤ b.1)) a b = true →
      (fun a b : Nat × Message × ℚ => decide (a.1 ≤ b.1)) b c = true →
      (fun a b : Nat × Message × ℚ => decide (a.1 ≤ b.1)) a c = true := by
    intro a b c h1 h2
    simp only [decide_eq_true_eq] at h1 h2 ⊢
    omega
  have htotal : ∀ a b : Nat × Message × ℚ,
      ((fun a b : Nat × Message × ℚ => decide (a.1 ≤ b.1)) a b
        || (fun a b : Nat × Message × ℚ => decide (a.1 ≤ b.1)) b a) = true := by
    intro a b
    simp only [Bool.or_eq_true, decide_eq_true_eq]
    omega
  have hneIdx : List.Pairwise (fun a b : Nat × Message × ℚ => a.1 ≠ b.1)
      (ImportanceScoringStrategy.indexedOf ms) :=
    (ImportanceScoringStrategy.indexedOf_pairwise ms).imp Nat.ne_of_lt
  have hpartition := ImportanceScoringStrategy.partition_perm ms pr
  have hneRP : List.Pairwise (fun a b : Nat × Message × ℚ => a.1 ≠ b.1)
      (ImportanceScoringStrategy.removableOf ms pr
        ++ ImportanceScoringStrategy.preservedOf ms pr) :=
    (hpartition.pairwise_iff hsymm).mpr hneIdx
  have hpermSR : (ImportanceScoringStrategy.sortedRemovableOf ms pr).Perm
      (ImportanceScoringStrategy.removableOf ms pr) := List.mergeSort_perm _ _
  have hneSP : List.Pairwise (fun a b : Nat × Message × ℚ => a.1 ≠ b.1)
      (ImportanceScoringStrategy.sortedRemovableOf ms pr
        ++ ImportanceScoringStrategy.preservedOf ms pr) :=
    ((hpermSR.append_right _).pairwise_iff hsymm).mpr hneRP
  have hsubA : A.Sublist (ImportanceScoringStrategy.sortedRemovableOf ms pr) :=
    ImportanceScoringStrategy.importancePopLoop_sublist tcf target _ _
  have hsubAP : (A ++ P).Sublist
      (ImportanceScoringStrategy.sortedRemovableOf ms pr
        ++ ImportanceScoringStrategy.preservedOf ms pr) :=
    hsubA.append_right _
  have hneAP : List.Pairwise (fun a b : Nat × Message × ℚ => a.1 ≠ b.1) (A ++ P) :=
    hneSP.sublist hsubAP
  have hpermL : ((A ++ P).mergeSort (fun a b => decide (a.1 ≤ b.1))).Perm (A ++ P) :=
    List.mergeSort_perm _ _
  have hneL := (hpermL.pairwise_iff hsymm).mpr hneAP
  have hSortL := List.sorted_mergeSort htrans htotal (A ++ P)
  have hstrictL : List.Pairwise (fun a b : Nat × Message × ℚ => a.1 < b.1)
      ((A ++ P).mergeSort (fun a b => decide (a.1 ≤ b.1))) := by
    refine (hSortL.and hneL).imp ?_
    rintro a b ⟨h1, h2⟩
    have := decide_eq_true_eq.mp h1
    omega
  have hpermA : (A.mergeSort (fun a b => decide (a.1 ≤ b.1))).Perm A :=
    List.mergeSort_perm _ _
  have hneA : List.Pairwise (fun a b : Nat × Message × ℚ => a.1 ≠ b.1) A :=
    hneAP.sublist (List.sublist_append_left A P)
  have hneMA := (hpermA.pairwise_iff hsymm).mpr hneA
  have hSortA := List.sorted_mergeSort htrans htotal A
  have hstrictA : List.Pairwise (fun a b : Nat × Message × ℚ => a.1 < b.1)
      (A.mergeSort (fun a b => decide (a.1 ≤ b.1))) := by
    refine (hSortA.and hneMA).imp ?_
    rintro a b ⟨h1, h2⟩
    have := decide_eq_true_eq.mp h1
    omega
  have hstrictP : List.Pairwise (fun a b : Nat × Message × ℚ => a.1 < b.1) P := by
    rw [hP]
    unfold ImportanceScoringStrategy.preservedOf
    rw [if_pos hpr]
    exact (ImportanceScoringStrategy.indexedOf_pairwise ms).filter _
  have hcross : ∀ a ∈ A.mergeSort (fun a b => decide (a.1 ≤ b.1)), ∀ b ∈ P,
      a.1 < b.1 := by
    intro a ha b hb
    have haA : a ∈ A := hpermA.subset ha
    have ha2 := ImportanceScoringStrategy.lpOf_mem_lt tcf ms target pr hpr a haA
    have hb2 : ms.length - pr ≤ b.1 := by
      rw [hP] at hb
      unfold ImportanceScoringStrategy.preservedOf at hb
      rw [if_pos hpr] at hb
      have := List.of_mem_filter hb
      simpa using this
    omega
  have hstrictR : List.Pairwise (fun a b : Nat × Message × ℚ => a.1 < b.1)
      (A.mergeSort (fun a b => decide (a.1 ≤ b.1)) ++ P) :=
    List.pairwise_append.mpr ⟨hstrictA, hstrictP, hcross⟩
  have hpermR : ((A ++ P).mergeSort (fun a b => decide (a.1 ≤ b.1))).Perm
      (A.mergeSort (fun a b => decide (a.1 ≤ b.1)) ++ P) :=
    hpermL.trans (hpermA.symm.append_right P)
  exact List.eq_of_perm_of_sorted hpermR hstrictL hstrictR

/-- Importance scoring keeps the last `preserve_recent` messages unchanged as
a suffix of its output. -/
theorem ImportanceScoringStrategy.preserve_suffix (tcf : String → Nat)
    (ms : List Message) (target pr : Nat) :
    (ms.drop (ms.length - pr)) <:+
      (ImportanceScoringStrategy.compact tcf ms target pr).messages := by
  by_cases h : TokenCounter.count_messages tcf ms ≤ target
  · have : (ImportanceScoringStrategy.compact tcf ms target pr).messages = ms := by
      simp [ImportanceScoringStrategy.compact, h]
    rw [this]
    exact List.drop_suffix _ _
  · rw [ImportanceScoringStrategy.compact_eq_of_over tcf ms target pr h]
    show (ms.drop (ms.length - pr)) <:+
      ImportanceScoringStrategy.resultOf tcf ms target pr
    by_cases hpr : 0 < pr
    · unfold ImportanceScoringStrategy.resultOf
      rw [ImportanceScoringStrategy.remainingOf_eq tcf ms target pr hpr,
        List.map_append, ImportanceScoringStrategy.preservedOf_map ms pr hpr]
      exact ⟨_, rfl⟩
    · have hpr0 : pr = 0 := by omega
      subst hpr0
      rw [Nat.sub_zero, List.drop_length]
      exact List.nil_suffix

/-- Concrete history for the C3 counterexample: one assistant message with two
tool calls whose results follow it; the second result is the last message. -/
def msgsCross : List Message :=
  [⟨"assistant", "", [⟨"a", "f", ""⟩, ⟨"b", "g", ""⟩], ""⟩,
   ⟨"tool", "ra", [], "a"⟩,
   ⟨"tool", "rb", [], "b"⟩]

/-- C3 counterexample: selective pruning removes a message inside the preserve
window — with `preserve_recent = 1`, pruning the (non-preserved) pair
`(assistant, first result)` also deletes the preserved second result, because
the strategy removes *all* results of the replaced assistant message; the last
message of the input is no suffix of the output. -/
theorem c3_selective_removes_preserved :
    (SelectivePruningStrategy.compact String.length msgsCross 10 1).messages
        = [⟨"system", "[Tool calls executed: f, g]", [], ""⟩]
    ∧ (msgsCross.drop (msgsCross.length - 1)).isSuffixOf
        (SelectivePruningStrategy.compact String.length msgsCross 10 1).messages
      = false := by
  decide

/-- C3 amended: sliding window preserves the last `preserve_recent` messages
as an unchanged suffix provided `preserve_recent < len(input)` (at equality it
may clear the whole window), and summarize-older and importance scoring always
do; selective pruning (and hybrid, which runs it) can delete a preserved tool
result whose paired assistant call lies outside the window. -/
theorem c3_preserve_suffix (tcf : String → Nat) (ms : List Message)
    (target pr : Nat) :
    (0 < pr → pr < ms.length →
      (ms.drop (ms.length - pr)) <:+
        (SlidingWindowStrategy.compact tcf ms target pr).messages)
    ∧ (ms.drop (ms.length - pr)) <:+
        (SummarizeOlderStrategy.compact tcf ms target pr).messages
    ∧ (ms.drop (ms.length - pr)) <:+
        (ImportanceScoringStrategy.compact tcf ms target pr).messages := by
  refine ⟨?_, ?_, ImportanceScoringStrategy.preserve_suffix tcf ms target pr⟩
  · intro hpr hlen
    unfold SlidingWindowStrategy.compact
    by_cases h : TokenCounter.count_messages tcf ms ≤ target
    · simp only [h, if_true]
      exact List.drop_suffix _ _
    · simp only [h, if_false]
      rw [if_pos ⟨hpr, hlen⟩]
      exact ⟨_, rfl⟩
  · unfold SummarizeOlderStrategy.compact
    by_cases h : TokenCounter.count_messages tcf ms ≤ target
    · simp only [h, if_true]
      exact List.drop_suffix _ _
    · simp only [h, if_false]
      by_cases hc : 0 < pr ∧ pr < ms.length
      · rw [if_pos hc]
        exact List.suffix_cons _ _
      · rw [if_neg hc]
        exact List.drop_suffix _ _

/-- C3 witness: the amended suffix property evaluated on the completed-pair
history under sliding window with `preserve_recent = 2 < 3`. -/
theorem c3_preserve_suffix_witness :
    (msgsPair.drop (msgsPair.length - 2)) <:+
      (SlidingWindowStrategy.compact String.length msgsPair 30 2).messages :=
  (c3_preserve_suffix String.length msgsPair 30 2).1 (by omega) (by decide)
